import Mathlib

/-!
# Verification of the publication scheduling and queueing engine

Shallow embedding of the scheduling/queueing core of the TelegaAutoPublishNEWS
repository: `scheduler.py` (`PublicationScheduler`), `database.py` (`NewsDatabase`),
`telegram_handler.py` (ingestion and dispatch paths) and `app.py` (cleanup job).

Timestamps are modelled as Madrid-civil calendar instants: a day index plus
hour/minute/second/microsecond fields, mirroring Python `datetime` values carrying
`MADRID_TZ`.  All slot arithmetic in the source is civil-calendar based in that one
timezone, so a single linear day index is a faithful carrier.
-/

namespace NewsBot

/-- Record status, `database.py`: the `status` column takes values
`'pending' | 'published' | 'failed'`. -/
inductive Status where
  | pending
  | published
  | failed
deriving DecidableEq, Repr

/-- A Madrid-civil timestamp: day index (linear count of calendar days) plus
time-of-day fields, mirroring a `datetime` with `MADRID_TZ`. -/
structure Timestamp where
  day : Nat
  hour : Nat
  minute : Nat
  second : Nat
  microsecond : Nat
deriving DecidableEq, Repr

/-- Linear key of a timestamp in microseconds; chronological comparison of
valid timestamps (hour < 24, minute < 60, second < 60, microsecond < 10^6)
coincides with comparison of keys. -/
def key (t : Timestamp) : Nat :=
  (((t.day * 24 + t.hour) * 60 + t.minute) * 60 + t.second) * 1000000 + t.microsecond

/-- `datetime.combine(date, datetime.min.time().replace(hour=hour), tzinfo=MADRID_TZ)`:
the exact top-of-hour instant of the given day. -/
def mkSlot (day hour : Nat) : Timestamp :=
  ⟨day, hour, 0, 0, 0⟩

/-- `sorted(self.publish_hours)` — ascending sort of the configured hours. -/
def sortedHours (hours : List Nat) : List Nat :=
  List.insertionSort (· ≤ ·) hours

/-- `scheduler.py` lines 43-47: slots of the current day whose hour is strictly
greater than the current hour. -/
def todaySlots (hours : List Nat) (now : Timestamp) : List Timestamp :=
  ((sortedHours hours).filter (fun h => now.hour < h)).map (mkSlot now.day)

/-- `scheduler.py` lines 49-54: all configured hours of each of the following
7 days. -/
def futureSlots (hours : List Nat) (now : Timestamp) : List Timestamp :=
  (List.range' 1 7).flatMap (fun d => (sortedHours hours).map (mkSlot (now.day + d)))

/-- The full candidate list `available_slots` built by `get_next_available_slot`. -/
def availableSlots (hours : List Nat) (now : Timestamp) : List Timestamp :=
  todaySlots hours now ++ futureSlots hours now

/-- `PublicationScheduler.get_next_available_slot(is_urgent, db)`.  The occupancy
store is modelled as an optional occupancy function (`db.get_next_slot_news_count`);
`none` models `db=None`.  The result is `none` exactly when the Python code would
raise (`available_slots[-1]` on an empty list, possible only with an empty hour
configuration). -/
def get_next_available_slot (hours : List Nat) (now : Timestamp) (is_urgent : Bool)
    (db : Option (Timestamp → Nat)) : Option Timestamp :=
  if is_urgent then some now
  else
    let slots := availableSlots hours now
    match db with
    | some occ =>
        match slots.find? (fun s => occ s == 0) with
        | some s => some s
        | none => slots.getLast?
    | none => some (slots.headD now)

/-- Python list indexing semantics: negative indices count from the end;
`none` models an `IndexError`. -/
def pyIdx {α : Type} (l : List α) (i : Int) : Option α :=
  if 0 ≤ i then
    (if i < (l.length : Int) then l[i.toNat]? else none)
  else
    (if 0 ≤ i + (l.length : Int) then l[(i + (l.length : Int)).toNat]? else none)

/-- `PublicationScheduler.get_specific_slot(target_date, slot_index)`.
Outer `none` models an uncaught `IndexError`; `some none` is the explicit
`return None` taken when `slot_index >= len(self.publish_hours)`. -/
def get_specific_slot (hours : List Nat) (dateDay : Nat) (slot_index : Int) :
    Option (Option Timestamp) :=
  if (hours.length : Int) ≤ slot_index then some none
  else
    match pyIdx (sortedHours hours) slot_index with
    | some h => some (some (mkSlot dateDay h))
    | none => none

/-- `PublicationScheduler.get_all_slots_for_date(target_date)`. -/
def get_all_slots_for_date (hours : List Nat) (dateDay : Nat) : List Timestamp :=
  (sortedHours hours).map (mkSlot dateDay)

/-- Python `min` over a non-empty list (first minimal element); `none` models the
`ValueError` raised on an empty list. -/
def pyMin {α : Type} (k : α → Nat) : List α → Option α
  | [] => none
  | a :: ts => some (ts.foldl (fun x y => if k y < k x then y else x) a)

/-- `PublicationScheduler.get_next_publication_time()`: the minimum of today's
slots strictly after `now`, else the first configured hour tomorrow.  `none`
models the `ValueError` of `min(self.publish_hours)` on an empty configuration. -/
def get_next_publication_time (hours : List Nat) (now : Timestamp) : Option Timestamp :=
  let nextSlots := ((sortedHours hours).map (mkSlot now.day)).filter
    (fun s => decide (key now < key s))
  match pyMin key nextSlots with
  | some t => some t
  | none =>
      match pyMin id hours with
      | some h => some (mkSlot (now.day + 1) h)
      | none => none

/-- One row of the `news_queue` table (`database.py`). -/
structure ArticleRecord where
  id : Nat
  url : String
  title : String
  original_text : String
  processed_text : String
  scheduled_time : Timestamp
  status : Status
  is_urgent : Bool
  created_at : Timestamp
  published_at : Option Timestamp
deriving DecidableEq, Repr

/-- The queue store: the rows of `news_queue` in insertion order. -/
abbrev NewsDB := List ArticleRecord

/-- `NewsDatabase.add_news`: the `UNIQUE` constraint on `url` makes a duplicate
insert raise `UniqueViolation`, which is caught and turned into `None`; otherwise
the row is inserted with `status = 'pending'`, `published_at` unset, and the fresh
serial id is returned. -/
def add_news (db : NewsDB) (nextId : Nat) (url title original_text processed_text : String)
    (scheduled_time : Timestamp) (is_urgent : Bool) (created : Timestamp) :
    Option Nat × NewsDB :=
  if db.any (fun r => r.url == url) then (none, db)
  else
    (some nextId,
      db ++ [{ id := nextId, url := url, title := title,
               original_text := original_text, processed_text := processed_text,
               scheduled_time := scheduled_time, status := .pending,
               is_urgent := is_urgent, created_at := created, published_at := none }])

/-- `NewsDatabase.get_next_slot_news_count`: count of pending rows whose
`scheduled_time` equals the slot exactly. -/
def get_next_slot_news_count (db : NewsDB) (slot : Timestamp) : Nat :=
  (db.filter (fun r => r.status == .pending && r.scheduled_time == slot)).length

/-- Sort key of `ORDER BY is_urgent DESC`: urgent rows first. -/
def urgKey (r : ArticleRecord) : Nat :=
  if r.is_urgent then 0 else 1

/-- The order `ORDER BY is_urgent DESC, scheduled_time ASC` of
`get_news_for_publication`. -/
def dueLE (a b : ArticleRecord) : Prop :=
  urgKey a < urgKey b ∨ (urgKey a = urgKey b ∧ key a.scheduled_time ≤ key b.scheduled_time)

instance : DecidableRel dueLE := fun a b => by
  unfold dueLE
  exact inferInstance

instance : IsTotal ArticleRecord dueLE :=
  ⟨fun a b => by unfold dueLE; omega⟩

instance : IsTrans ArticleRecord dueLE :=
  ⟨fun a b c hab hbc => by unfold dueLE at *; omega⟩

/-- The `WHERE status = 'pending' AND scheduled_time <= now` predicate. -/
def duePred (now : Timestamp) (r : ArticleRecord) : Bool :=
  r.status == .pending && decide (key r.scheduled_time ≤ key now)

/-- `NewsDatabase.get_news_for_publication(limit)`: pending rows due by `now`,
ordered by `(is_urgent DESC, scheduled_time ASC)`, capped at `limit`. -/
def get_news_for_publication (db : NewsDB) (now : Timestamp) (limit : Nat) :
    List ArticleRecord :=
  ((db.filter (duePred now)).insertionSort dueLE).take limit

/-- `NewsDatabase.mark_as_published`: unconditional single-row update
`SET status = 'published', published_at = now WHERE id = news_id`. -/
def mark_as_published (db : NewsDB) (now : Timestamp) (news_id : Nat) : NewsDB :=
  db.map (fun r =>
    if r.id == news_id then { r with status := .published, published_at := some now }
    else r)

/-- `NewsDatabase.mark_as_failed`: unconditional single-row update
`SET status = 'failed' WHERE id = news_id`. -/
def mark_as_failed (db : NewsDB) (news_id : Nat) : NewsDB :=
  db.map (fun r => if r.id == news_id then { r with status := .failed } else r)

/-- `TelegramHandler.publish_news_by_id`: look the record up, send it
(`sendOk` models success of `bot.send_message`), then `mark_as_published` on
success or `mark_as_failed` on a send exception.  Returns the success flag and
the updated store. -/
def publish_news_by_id (db : NewsDB) (now : Timestamp) (news_id : Nat) (sendOk : Bool) :
    Bool × NewsDB :=
  match db.find? (fun r => r.id == news_id) with
  | none => (false, db)
  | some _ =>
      if sendOk then (true, mark_as_published db now news_id)
      else (false, mark_as_failed db news_id)

/-- `TelegramHandler.publish_scheduled_news`: the dispatcher tick — pull due
records with `limit = 1` and publish each through `publish_news_by_id`. -/
def publish_scheduled_news (db : NewsDB) (now : Timestamp) (sendOk : Bool) : NewsDB :=
  (get_news_for_publication db now 1).foldl
    (fun d n => (publish_news_by_id d now n.id sendOk).2) db

/-- Result of one ingestion step for a single URL. -/
structure IngestResult where
  scheduled_time : Timestamp
  news_id : Option Nat
  db : NewsDB
  published_immediately : Bool
deriving DecidableEq, Repr

/-- The per-URL core of `TelegramHandler._process_urls` (after parse, validation
and rewrite succeeded): `scheduled_time = self.scheduler.get_next_available_slot
(is_urgent=is_urgent)` — the `db` argument is NOT passed at
`telegram_handler.py` line 228 — then `add_news`, and for an urgent article with
a fresh id an immediate `publish_news_by_id` through the dispatcher's publish
path. -/
def process_url (hours : List Nat) (now : Timestamp) (db : NewsDB) (nextId : Nat)
    (url title original_text processed_text : String) (is_urgent : Bool)
    (sendOk : Bool) : IngestResult :=
  let scheduled := (get_next_available_slot hours now is_urgent none).getD now
  let res := add_news db nextId url title original_text processed_text scheduled
    is_urgent now
  match res.1 with
  | some i =>
      if is_urgent then
        { scheduled_time := scheduled, news_id := some i,
          db := (publish_news_by_id res.2 now i sendOk).2,
          published_immediately := true }
      else
        { scheduled_time := scheduled, news_id := some i, db := res.2,
          published_immediately := false }
  | none =>
      { scheduled_time := scheduled, news_id := none, db := res.2,
        published_immediately := false }

/-- Retention window in microseconds. -/
def daysMicro (d : Nat) : Nat :=
  d * 24 * 60 * 60 * 1000000

/-- Modelled from the spec: `delete_old_published_news(days)` is invoked by the
cleanup job in `app.py` but its definition is absent from `src/database.py`.
Per the spec's retention contract, a periodic sweep deletes `published` records
older than the retention window while `pending` and `failed` records are never
auto-deleted; a published record's age is measured from its `published_at`
stamp. -/
def delete_old_published_news (db : NewsDB) (now : Timestamp) (days : Nat) : NewsDB :=
  db.filter (fun r =>
    !(r.status == .published &&
      (match r.published_at with
       | some p => decide (key p + daysMicro days < key now)
       | none => false)))

/-- `app.py cleanup_old_news_job`: the periodic sweep calls
`database.delete_old_published_news(days=7)`. -/
def cleanup_old_news_job (db : NewsDB) (now : Timestamp) : NewsDB :=
  delete_old_published_news db now 7

/-- A run of successive non-urgent allocations against an occupancy store:
each allocated slot is immediately occupied by enqueueing a fresh article
scheduled at it, as repeated ingestion against the store would. -/
def allocateAndOccupy (hours : List Nat) (now : Timestamp) :
    Nat → NewsDB → List Timestamp
  | 0, _ => []
  | n + 1, db =>
      let s := (get_next_available_slot hours now false
        (some (get_next_slot_news_count db))).getD now
      s :: allocateAndOccupy hours now n
        (add_news db db.length (toString db.length) "t" "o" "p" s false now).2

/-- A pending non-urgent article occupying the 12:00 slot of day 0. -/
def occupiedRec : ArticleRecord :=
  { id := 1, url := "w", title := "t", original_text := "o", processed_text := "p",
    scheduled_time := mkSlot 0 12, status := .pending, is_urgent := false,
    created_at := mkSlot 0 9, published_at := none }

/-- A non-urgent pending record due at 08:00 of day 0. -/
def rnRec : ArticleRecord :=
  { id := 1, url := "a", title := "t", original_text := "o", processed_text := "p",
    scheduled_time := mkSlot 0 8, status := .pending, is_urgent := false,
    created_at := mkSlot 0 7, published_at := none }

/-- An urgent pending record due at the same instant 08:00 of day 0. -/
def ruRec : ArticleRecord :=
  { id := 2, url := "b", title := "t", original_text := "o", processed_text := "p",
    scheduled_time := mkSlot 0 8, status := .pending, is_urgent := true,
    created_at := mkSlot 0 7, published_at := none }

/-- A record that already carries the terminal status `failed`. -/
def recFailed : ArticleRecord :=
  { id := 1, url := "u", title := "t", original_text := "o", processed_text := "p",
    scheduled_time := mkSlot 0 8, status := .failed, is_urgent := false,
    created_at := mkSlot 0 7, published_at := none }

/-- A record published at 08:00 of day 0, well past a 7-day retention window
by day 10. -/
def recPublishedOld : ArticleRecord :=
  { id := 3, url := "c", title := "t", original_text := "o", processed_text := "p",
    scheduled_time := mkSlot 0 8, status := .published, is_urgent := false,
    created_at := mkSlot 0 7, published_at := some (mkSlot 0 8) }

/-- A timestamp is an exact top-of-hour instant. -/
def topOfHour (t : Timestamp) : Prop :=
  t.minute = 0 ∧ t.second = 0 ∧ t.microsecond = 0

/-!
## Supporting lemmas
-/

theorem sortedHours_perm (hours : List Nat) :
    List.Perm (sortedHours hours) hours :=
  List.perm_insertionSort _ hours

theorem mem_sortedHours {hours : List Nat} {h : Nat} :
    h ∈ sortedHours hours ↔ h ∈ hours :=
  (sortedHours_perm hours).mem_iff

theorem sortedHours_pairwise_lt {hours : List Nat} (hnd : hours.Nodup) :
    List.Pairwise (· < ·) (sortedHours hours) :=
  List.Sorted.lt_of_le (List.sorted_insertionSort _ hours)
    ((sortedHours_perm hours).nodup_iff.mpr hnd)

theorem key_mkSlot (d h : Nat) : key (mkSlot d h) = (d * 24 + h) * 3600000000 := by
  simp only [key, mkSlot]
  ring

theorem keyLt_mkSlot {d1 h1 d2 h2 : Nat} (h : d1 * 24 + h1 < d2 * 24 + h2) :
    key (mkSlot d1 h1) < key (mkSlot d2 h2) := by
  rw [key_mkSlot, key_mkSlot]
  exact mul_lt_mul_of_pos_right h (by norm_num)

theorem pairwise_map_mkSlot {lh : List Nat} (d : Nat)
    (h : List.Pairwise (· < ·) lh) :
    List.Pairwise (fun a b => key a < key b) (lh.map (mkSlot d)) := by
  rw [List.pairwise_map]
  exact h.imp (fun hab => keyLt_mkSlot (by omega))

theorem pairwise_flatMap_days (hours : List Nat) (hnd : hours.Nodup)
    (h24 : ∀ h ∈ hours, h < 24) (f : Nat → Nat) :
    ∀ ds : List Nat, List.Pairwise (fun a b => f a < f b) ds →
      List.Pairwise (fun a b => key a < key b)
        (ds.flatMap (fun d => (sortedHours hours).map (mkSlot (f d))))
  | [], _ => by simp
  | d :: ds, hp => by
      rw [List.flatMap_cons]
      refine List.pairwise_append.2
        ⟨pairwise_map_mkSlot _ (sortedHours_pairwise_lt hnd),
         pairwise_flatMap_days hours hnd h24 f ds hp.of_cons, ?_⟩
      intro a ha b hb
      obtain ⟨h1, hh1, rfl⟩ := List.mem_map.1 ha
      obtain ⟨d', hd', hb'⟩ := List.mem_flatMap.1 hb
      obtain ⟨h2, hh2, rfl⟩ := List.mem_map.1 hb'
      have hdd : f d < f d' := (List.pairwise_cons.1 hp).1 d' hd'
      have h1lt : h1 < 24 := h24 h1 (mem_sortedHours.1 hh1)
      exact keyLt_mkSlot (by omega)

theorem pairwise_availableSlots {hours : List Nat} (now : Timestamp)
    (hnd : hours.Nodup) (h24 : ∀ h ∈ hours, h < 24) :
    List.Pairwise (fun a b => key a < key b) (availableSlots hours now) := by
  unfold availableSlots todaySlots futureSlots
  refine List.pairwise_append.2 ⟨?_, ?_, ?_⟩
  · exact pairwise_map_mkSlot _ ((sortedHours_pairwise_lt hnd).filter _)
  · exact pairwise_flatMap_days hours hnd h24 _ (List.range' 1 7)
      ((by decide : List.Pairwise (· < ·) (List.range' 1 7)).imp
        (fun hab => by omega))
  · intro a ha b hb
    obtain ⟨h1, hh1, rfl⟩ := List.mem_map.1 ha
    have hh1' := List.mem_filter.1 hh1
    obtain ⟨d', hd', hb'⟩ := List.mem_flatMap.1 hb
    obtain ⟨h2, hh2, rfl⟩ := List.mem_map.1 hb'
    have h1lt : h1 < 24 := h24 h1 (mem_sortedHours.1 hh1'.1)
    have hd1 : 1 ≤ d' := (List.mem_range'_1.1 hd').1
    exact keyLt_mkSlot (by omega)

theorem mem_availableSlots_shape {hours : List Nat} {now : Timestamp} {s : Timestamp}
    (hs : s ∈ availableSlots hours now) :
    ∃ d h, h ∈ hours ∧ s = mkSlot d h := by
  rcases List.mem_append.1 hs with h1 | h2
  · obtain ⟨h, hh, rfl⟩ := List.mem_map.1 h1
    exact ⟨now.day, h, mem_sortedHours.1 (List.mem_filter.1 hh).1, rfl⟩
  · obtain ⟨d, hd, hb⟩ := List.mem_flatMap.1 h2
    obtain ⟨h, hh, rfl⟩ := List.mem_map.1 hb
    exact ⟨now.day + d, h, mem_sortedHours.1 hh, rfl⟩

theorem sortedHours_ne_nil {hours : List Nat} (hne : hours ≠ []) :
    sortedHours hours ≠ [] := by
  intro h
  have hl := (sortedHours_perm hours).length_eq
  rw [h] at hl
  exact hne (List.length_eq_zero.1 hl.symm)

theorem availableSlots_ne_nil {hours : List Nat} (now : Timestamp) (hne : hours ≠ []) :
    availableSlots hours now ≠ [] := by
  obtain ⟨a, t, hat⟩ := List.exists_cons_of_ne_nil (sortedHours_ne_nil hne)
  have hmem : mkSlot (now.day + 1) a ∈ futureSlots hours now := by
    refine List.mem_flatMap.2 ⟨1, by decide, List.mem_map.2 ⟨a, ?_, rfl⟩⟩
    rw [hat]
    exact List.mem_cons_self a t
  exact List.ne_nil_of_mem (List.mem_append.2 (Or.inr hmem))

theorem find?_eq_some_of_exists {α : Type} (p : α → Bool) :
    ∀ l : List α, (∃ c ∈ l, p c = true) → ∃ s, l.find? p = some s
  | [], h => by simp at h
  | a :: l, h => by
      by_cases hpa : p a = true
      · exact ⟨a, by simp [List.find?_cons, hpa]⟩
      · obtain ⟨c, hc, hpc⟩ := h
        have hcl : c ∈ l := by
          rcases List.mem_cons.1 hc with rfl | hcl
          · exact absurd hpc hpa
          · exact hcl
        obtain ⟨s, hs⟩ := find?_eq_some_of_exists p l ⟨c, hcl, hpc⟩
        rw [Bool.not_eq_true] at hpa
        exact ⟨s, by simp [List.find?_cons, hpa, hs]⟩

theorem find?_first (p : Timestamp → Bool) :
    ∀ l : List Timestamp, List.Pairwise (fun a b => key a < key b) l →
      ∀ s, l.find? p = some s → ∀ t ∈ l, key t < key s → p t = false
  | [], _, s, h => by simp at h
  | a :: l, hp, s, h => by
      intro t ht hlt
      by_cases hpa : p a = true
      · have hs : a = s := by
          have h' := h
          simpa [List.find?_cons, hpa] using h'
        subst hs
        rcases List.mem_cons.1 ht with rfl | htl
        · omega
        · have := (List.pairwise_cons.1 hp).1 t htl
          omega
      · have hpa' : p a = false := by rwa [Bool.not_eq_true] at hpa
        have h' : l.find? p = some s := by
          simpa [List.find?_cons, hpa'] using h
        rcases List.mem_cons.1 ht with rfl | htl
        · exact hpa'
        · exact find?_first p l (List.pairwise_cons.1 hp).2 s h' t htl hlt

theorem foldl_pick_mem {α : Type} (k : α → Nat) :
    ∀ (l : List α) (a : α),
      l.foldl (fun x y => if k y < k x then y else x) a ∈ a :: l
  | [], a => List.mem_cons_self a []
  | b :: t, a => by
      have ih := foldl_pick_mem k t (if k b < k a then b else a)
      simp only [List.foldl_cons]
      rcases List.mem_cons.1 ih with h | h
      · rw [h]
        split
        · exact List.mem_cons_of_mem _ (List.mem_cons_self _ _)
        · exact List.mem_cons_self _ _
      · exact List.mem_cons_of_mem _ (List.mem_cons_of_mem _ h)

theorem pyMin_mem {α : Type} (k : α → Nat) {l : List α} {a : α}
    (h : pyMin k l = some a) : a ∈ l := by
  cases l with
  | nil => simp [pyMin] at h
  | cons b t =>
      simp only [pyMin, Option.some.injEq] at h
      rw [← h]
      exact foldl_pick_mem k t b

theorem pyIdx_mem {α : Type} {l : List α} {i : Int} {a : α}
    (h : pyIdx l i = some a) : a ∈ l := by
  unfold pyIdx at h
  split at h <;> split at h <;> first
    | exact List.getElem?_mem h
    | exact absurd h (by simp)

/-!
## Claims
-/

/-- C1: with a duplicate-free configured hour set of valid hours-of-day, the
non-urgent candidate enumeration of `get_next_available_slot` is strictly
increasing chronologically; its current-day candidates are exactly the configured
hours whose hour is strictly greater than the current hour, and for each of the
7 following days exactly the configured hours; with an occupancy store, the
returned slot is the first candidate with zero occupancy; and with hours
{8,12,16,20}, now = 09:00 and an empty queue, four successive non-urgent
allocations yield today 12:00, today 16:00, today 20:00, then tomorrow 08:00. -/
theorem C1_slot_enumeration_and_first_free (hours : List Nat) (now : Timestamp)
    (hnd : hours.Nodup) (h24 : ∀ h ∈ hours, h < 24) :
    List.Pairwise (fun a b => key a < key b) (availableSlots hours now)
    ∧ (∀ h, mkSlot now.day h ∈ availableSlots hours now ↔ h ∈ hours ∧ now.hour < h)
    ∧ (∀ d h, 1 ≤ d → d ≤ 7 →
        (mkSlot (now.day + d) h ∈ availableSlots hours now ↔ h ∈ hours))
    ∧ (∀ occ : Timestamp → Nat,
        (∃ c ∈ availableSlots hours now, occ c = 0) →
        ∃ s, get_next_available_slot hours now false (some occ) = some s
          ∧ s ∈ availableSlots hours now ∧ occ s = 0
          ∧ ∀ t ∈ availableSlots hours now, key t < key s → occ t ≠ 0)
    ∧ allocateAndOccupy [8, 12, 16, 20] ⟨0, 9, 0, 0, 0⟩ 4 []
        = [mkSlot 0 12, mkSlot 0 16, mkSlot 0 20, mkSlot 1 8] := by
  refine ⟨pairwise_availableSlots now hnd h24, ?_, ?_, ?_, by decide⟩
  · intro h
    constructor
    · intro hmem
      rcases List.mem_append.1 hmem with h1 | h2
      · obtain ⟨h', hh', heq⟩ := List.mem_map.1 h1
        unfold mkSlot at heq
        injection heq with hq1 hq2 hq3 hq4 hq5
        subst hq2
        have hf := List.mem_filter.1 hh'
        exact ⟨mem_sortedHours.1 hf.1, of_decide_eq_true hf.2⟩
      · obtain ⟨d', hd', hb'⟩ := List.mem_flatMap.1 h2
        obtain ⟨h2', hh2', heq⟩ := List.mem_map.1 hb'
        have hd1 : 1 ≤ d' := (List.mem_range'_1.1 hd').1
        unfold mkSlot at heq
        injection heq with hq1 hq2 hq3 hq4 hq5
        omega
    · intro ⟨hmem, hgt⟩
      refine List.mem_append.2 (Or.inl ?_)
      exact List.mem_map.2 ⟨h,
        List.mem_filter.2 ⟨mem_sortedHours.2 hmem, decide_eq_true hgt⟩, rfl⟩
  · intro d h hd1 hd7
    constructor
    · intro hmem
      rcases List.mem_append.1 hmem with h1 | h2
      · obtain ⟨h', hh', heq⟩ := List.mem_map.1 h1
        unfold mkSlot at heq
        injection heq with hq1 hq2 hq3 hq4 hq5
        omega
      · obtain ⟨d', hd', hb'⟩ := List.mem_flatMap.1 h2
        obtain ⟨h2', hh2', heq⟩ := List.mem_map.1 hb'
        unfold mkSlot at heq
        injection heq with hq1 hq2 hq3 hq4 hq5
        rw [← hq2]
        exact mem_sortedHours.1 hh2'
    · intro hmem
      refine List.mem_append.2 (Or.inr ?_)
      refine List.mem_flatMap.2 ⟨d, List.mem_range'_1.2 ⟨hd1, by omega⟩, ?_⟩
      exact List.mem_map.2 ⟨h, mem_sortedHours.2 hmem, rfl⟩
  · intro occ hex
    have hex' : ∃ c ∈ availableSlots hours now, (fun s => occ s == 0) c = true := by
      obtain ⟨c, hc, hc0⟩ := hex
      exact ⟨c, hc, by simp [hc0]⟩
    obtain ⟨s, hs⟩ := find?_eq_some_of_exists _ _ hex'
    refine ⟨s, ?_, List.mem_of_find?_eq_some hs, ?_, ?_⟩
    · simp [get_next_available_slot, hs]
    · have := List.find?_some hs
      simpa using this
    · intro t ht hlt
      have := find?_first _ _ (pairwise_availableSlots now hnd h24) s hs t ht hlt
      simpa using this

/-- Witness for C1: the scenario hours {8,12,16,20}, 09:00, empty queue. -/
theorem C1_slot_enumeration_witness :
    allocateAndOccupy [8, 12, 16, 20] ⟨0, 9, 0, 0, 0⟩ 4 []
      = [mkSlot 0 12, mkSlot 0 16, mkSlot 0 20, mkSlot 1 8] :=
  (C1_slot_enumeration_and_first_free [8, 12, 16, 20] ⟨0, 9, 0, 0, 0⟩ (by decide)
    (by decide)).2.2.2.2

theorem add_news_fresh {db : NewsDB} {u : String} (hu : ∀ r ∈ db, r.url ≠ u)
    (nid : Nat) (t o p : String) (s c : Timestamp) (urg : Bool) :
    add_news db nid u t o p s urg c
      = (some nid, db ++ [{ id := nid, url := u, title := t, original_text := o,
                            processed_text := p, scheduled_time := s,
                            status := .pending, is_urgent := urg,
                            created_at := c, published_at := none }]) := by
  unfold add_news
  have hany : db.any (fun r => r.url == u) = false := by
    rw [List.any_eq_false]
    intro r hr
    simpa using hu r hr
  simp [hany]

theorem add_news_dup {db : NewsDB} {u : String} (hmem : ∃ r ∈ db, r.url = u)
    (nid : Nat) (t o p : String) (s c : Timestamp) (urg : Bool) :
    add_news db nid u t o p s urg c = (none, db) := by
  unfold add_news
  have hany : db.any (fun r => r.url == u) = true := by
    obtain ⟨r, hr, hru⟩ := hmem
    exact List.any_eq_true.2 ⟨r, hr, by simp [hru]⟩
  simp [hany]

theorem process_url_scheduled (hours : List Nat) (now : Timestamp) (db : NewsDB)
    (nextId : Nat) (url title orig proc : String) (u sendOk : Bool) :
    (process_url hours now db nextId url title orig proc u sendOk).scheduled_time
      = (get_next_available_slot hours now u none).getD now := by
  unfold process_url
  dsimp only
  split
  · split <;> rfl
  · rfl

/-- C2 counterexample: with hours {8,12,16,20}, now = 09:00 and a pending record
already occupying today 12:00, the first candidate with zero occupancy is 16:00,
yet the Ingestion Coordinator (which omits the `db` argument at
`telegram_handler.py` line 228) assigns 12:00 — the occupied slot. -/
theorem C2_counterexample :
    (availableSlots [8, 12, 16, 20] ⟨0, 9, 0, 0, 0⟩).find?
      (fun s => get_next_slot_news_count [occupiedRec] s == 0) = some (mkSlot 0 16)
    ∧ (process_url [8, 12, 16, 20] ⟨0, 9, 0, 0, 0⟩ [occupiedRec] 2 "u" "t" "o" "p"
        false true).scheduled_time = mkSlot 0 12
    ∧ mkSlot 0 12 ≠ mkSlot 0 16 := by
  decide

/-- C2 (amended): for every non-urgent ingested article, the Ingestion
Coordinator invokes the slot allocator WITHOUT the Queue Store's occupancy
predicate (the `db` argument is omitted), so the assigned `scheduled_time` is
the allocator's store-less fallback — the first chronological candidate —
regardless of occupancy. -/
theorem C2_ingestion_schedules_first_candidate (hours : List Nat) (now : Timestamp)
    (db : NewsDB) (nextId : Nat) (url title orig proc : String) (sendOk : Bool) :
    (process_url hours now db nextId url title orig proc false sendOk).scheduled_time
      = (availableSlots hours now).headD now :=
  process_url_scheduled hours now db nextId url title orig proc false sendOk

/-- C3: enqueueing the same URL a second time returns the duplicate outcome
(`None`) instead of raising, creates no second row (the store is unchanged and
holds exactly one record with that URL), and the Ingestion Coordinator swallows
the outcome: its per-URL step on a store already holding the URL reports no id,
leaves the store unchanged, and triggers no publication. -/
theorem C3_duplicate_enqueue_noop (db : NewsDB) (nid1 nid2 : Nat)
    (u t1 o1 p1 t2 o2 p2 : String) (s1 s2 c1 c2 : Timestamp) (urg1 urg2 : Bool)
    (hu : ∀ r ∈ db, r.url ≠ u) :
    (add_news db nid1 u t1 o1 p1 s1 urg1 c1).1 = some nid1
    ∧ (add_news (add_news db nid1 u t1 o1 p1 s1 urg1 c1).2 nid2 u t2 o2 p2 s2
        urg2 c2).1 = none
    ∧ (add_news (add_news db nid1 u t1 o1 p1 s1 urg1 c1).2 nid2 u t2 o2 p2 s2
        urg2 c2).2 = (add_news db nid1 u t1 o1 p1 s1 urg1 c1).2
    ∧ ((add_news db nid1 u t1 o1 p1 s1 urg1 c1).2.filter
        (fun r => r.url == u)).length = 1
    ∧ (∀ hours : List Nat, ∀ now : Timestamp, ∀ nid3 : Nat, ∀ t3 o3 p3 : String,
        ∀ urg3 sendOk : Bool,
        (process_url hours now (add_news db nid1 u t1 o1 p1 s1 urg1 c1).2 nid3 u t3
          o3 p3 urg3 sendOk).news_id = none
        ∧ (process_url hours now (add_news db nid1 u t1 o1 p1 s1 urg1 c1).2 nid3 u
            t3 o3 p3 urg3 sendOk).db = (add_news db nid1 u t1 o1 p1 s1 urg1 c1).2
        ∧ (process_url hours now (add_news db nid1 u t1 o1 p1 s1 urg1 c1).2 nid3 u
            t3 o3 p3 urg3 sendOk).published_immediately = false) := by
  have h1 := add_news_fresh hu nid1 t1 o1 p1 s1 c1 urg1
  have hmem : ∃ r ∈ (add_news db nid1 u t1 o1 p1 s1 urg1 c1).2, r.url = u := by
    rw [h1]
    exact ⟨_, List.mem_append.2 (Or.inr (List.mem_cons_self _ _)), rfl⟩
  have h2 := add_news_dup hmem nid2 t2 o2 p2 s2 c2 urg2
  refine ⟨by rw [h1], by rw [h2], by rw [h2], ?_, ?_⟩
  · rw [h1]
    have hnil : db.filter (fun r => r.url == u) = [] := by
      rw [List.filter_eq_nil_iff]
      intro r hr
      simpa using hu r hr
    simp [List.filter_append, hnil]
  · intro hours now nid3 t3 o3 p3 urg3 sendOk
    have h3 : ∀ s : Timestamp, add_news (add_news db nid1 u t1 o1 p1 s1 urg1 c1).2
        nid3 u t3 o3 p3 s urg3 now = (none, (add_news db nid1 u t1 o1 p1 s1 urg1 c1).2) :=
      fun s => add_news_dup hmem nid3 t3 o3 p3 s now urg3
    refine ⟨?_, ?_, ?_⟩ <;>
      · unfold process_url
        dsimp only
        rw [h3]

/-- Witness for C3: two enqueues of the same URL into an empty store. -/
theorem C3_duplicate_enqueue_witness :
    (add_news [] 1 "x" "t" "o" "p" (mkSlot 0 8) false (mkSlot 0 7)).1 = some 1
    ∧ (add_news (add_news [] 1 "x" "t" "o" "p" (mkSlot 0 8) false (mkSlot 0 7)).2 2
        "x" "t" "o" "p" (mkSlot 0 12) false (mkSlot 0 7)).1 = none :=
  ⟨(C3_duplicate_enqueue_noop [] 1 2 "x" "t" "o" "p" "t" "o" "p" (mkSlot 0 8)
      (mkSlot 0 12) (mkSlot 0 7) (mkSlot 0 7) false false
      (fun r hr => absurd hr (List.not_mem_nil r))).1,
   (C3_duplicate_enqueue_noop [] 1 2 "x" "t" "o" "p" "t" "o" "p" (mkSlot 0 8)
      (mkSlot 0 12) (mkSlot 0 7) (mkSlot 0 7) false false
      (fun r hr => absurd hr (List.not_mem_nil r))).2.1⟩

/-- C4: `get_news_for_publication(limit)` returns only pending records due by
`now`, at most `limit` of them, ordered by (`is_urgent` DESC, `scheduled_time`
ASC); whenever the due set fits under the cap it is returned in full; and with
two records pending at the same past instant, one urgent and one not, a call
with limit 1 returns the urgent one. -/
theorem C4_due_for_publication (db : NewsDB) (now : Timestamp) (limit : Nat) :
    (∀ r ∈ get_news_for_publication db now limit,
      r.status = .pending ∧ key r.scheduled_time ≤ key now)
    ∧ (get_news_for_publication db now limit).length ≤ limit
    ∧ List.Pairwise dueLE (get_news_for_publication db now limit)
    ∧ ((db.filter (duePred now)).length ≤ limit →
        ∀ r : ArticleRecord,
          r ∈ get_news_for_publication db now limit ↔ r ∈ db.filter (duePred now))
    ∧ get_news_for_publication [rnRec, ruRec] ⟨0, 9, 0, 0, 0⟩ 1 = [ruRec] := by
  have hperm : List.Perm ((db.filter (duePred now)).insertionSort dueLE)
      (db.filter (duePred now)) := List.perm_insertionSort dueLE _
  refine ⟨?_, List.length_take_le _ _, ?_, ?_, by decide⟩
  · intro r hr
    have hr1 : r ∈ (db.filter (duePred now)).insertionSort dueLE :=
      (List.take_sublist _ _).subset hr
    have hr2 : r ∈ db.filter (duePred now) := hperm.mem_iff.1 hr1
    have hd := (List.mem_filter.1 hr2).2
    unfold duePred at hd
    simp only [Bool.and_eq_true, beq_iff_eq, decide_eq_true_eq] at hd
    exact hd
  · exact (List.sorted_insertionSort dueLE _).sublist (List.take_sublist _ _)
  · intro hlen r
    have hlen2 : ((db.filter (duePred now)).insertionSort dueLE).length ≤ limit := by
      rw [hperm.length_eq]
      exact hlen
    unfold get_news_for_publication
    rw [List.take_of_length_le hlen2]
    exact hperm.mem_iff

/-- Witness for C4: the tie-break scenario, plus the under-cap exactness at
limit 2 discharged on the same two-record store. -/
theorem C4_due_for_publication_witness :
    get_news_for_publication [rnRec, ruRec] ⟨0, 9, 0, 0, 0⟩ 1 = [ruRec]
    ∧ (ruRec ∈ get_news_for_publication [rnRec, ruRec] ⟨0, 9, 0, 0, 0⟩ 2
        ↔ ruRec ∈ ([rnRec, ruRec] : NewsDB).filter (duePred ⟨0, 9, 0, 0, 0⟩)) :=
  ⟨(C4_due_for_publication [rnRec, ruRec] ⟨0, 9, 0, 0, 0⟩ 1).2.2.2.2,
   (C4_due_for_publication [rnRec, ruRec] ⟨0, 9, 0, 0, 0⟩ 2).2.2.2.1 (by decide) ruRec⟩

/-- C5: the urgent slot computation returns "now" unconditionally — for every
occupancy argument, with no slot enumeration — and after a successful enqueue
the urgent record is immediately pushed through `publish_news_by_id`, the same
publish path the dispatcher uses, synchronously within the ingestion step; in
the concrete 09:03 scenario the record ends up published at 09:03 at once. -/
theorem C5_urgent_bypass (hours : List Nat) (now : Timestamp) (db : NewsDB)
    (nextId : Nat) (u t o p : String) (sendOk : Bool)
    (hu : ∀ r ∈ db, r.url ≠ u) :
    (∀ occ : Option (Timestamp → Nat),
      get_next_available_slot hours now true occ = some now)
    ∧ (process_url hours now db nextId u t o p true sendOk).scheduled_time = now
    ∧ (process_url hours now db nextId u t o p true sendOk).news_id = some nextId
    ∧ (process_url hours now db nextId u t o p true sendOk).published_immediately
        = true
    ∧ (process_url hours now db nextId u t o p true sendOk).db
        = (publish_news_by_id (add_news db nextId u t o p now true now).2 now nextId
            sendOk).2
    ∧ (process_url [8, 12, 16, 20] ⟨0, 9, 3, 0, 0⟩ [] 1 "u" "t" "o" "p" true
        true).db
        = [{ id := 1, url := "u", title := "t", original_text := "o",
             processed_text := "p", scheduled_time := ⟨0, 9, 3, 0, 0⟩,
             status := .published, is_urgent := true,
             created_at := ⟨0, 9, 3, 0, 0⟩,
             published_at := some ⟨0, 9, 3, 0, 0⟩ }] := by
  have hadd := add_news_fresh hu nextId t o p now now true
  have hres : process_url hours now db nextId u t o p true sendOk
      = { scheduled_time := now, news_id := some nextId,
          db := (publish_news_by_id (add_news db nextId u t o p now true now).2 now
            nextId sendOk).2,
          published_immediately := true } := by
    unfold process_url
    dsimp only
    have hsched : (get_next_available_slot hours now true none).getD now = now := rfl
    rw [hsched, hadd]
    rfl
  refine ⟨fun occ => rfl, by rw [hres], by rw [hres], by rw [hres], by rw [hres],
    by decide⟩

/-- Witness for C5: urgent ingestion at 09:03 into an empty store with a
successful send. -/
theorem C5_urgent_bypass_witness :
    (process_url [8, 12, 16, 20] ⟨0, 9, 3, 0, 0⟩ [] 1 "u" "t" "o" "p" true
        true).db
      = [{ id := 1, url := "u", title := "t", original_text := "o",
           processed_text := "p", scheduled_time := ⟨0, 9, 3, 0, 0⟩,
           status := .published, is_urgent := true,
           created_at := ⟨0, 9, 3, 0, 0⟩,
           published_at := some ⟨0, 9, 3, 0, 0⟩ }] :=
  (C5_urgent_bypass [8, 12, 16, 20] ⟨0, 9, 3, 0, 0⟩ [] 1 "u" "t" "o" "p" true
    (fun r hr => absurd hr (List.not_mem_nil r))).2.2.2.2.2

/-- C6 counterexample: `mark_as_published` is an unconditional id-guarded
update — applied to a record whose status is already terminal (`failed`), it
transitions it to `published`, so the transition failed→published does occur,
contrary to the claim. -/
theorem C6_counterexample :
    recFailed.status = Status.failed
    ∧ (mark_as_published [recFailed] (mkSlot 0 9) 1).map (fun r => r.status)
        = [Status.published] := by
  decide

/-- C6 (amended): `mark_as_published` and `mark_as_failed` are unconditional
single-row updates guarded only by id: `mark_as_published` sets status to
published and stamps `published_at` with the call time regardless of prior
status (re-stamping on every call), `mark_as_failed` sets status to failed
regardless of prior status; repeating the same mark (same timestamp) is
idempotent, and records with other ids are left unchanged — so applied to
pending records, as the dispatcher does, they realize exactly pending→published
and pending→failed. -/
theorem C6_mark_transitions (db : NewsDB) (t : Timestamp) (i : Nat) :
    (∀ r ∈ mark_as_published db t i,
        r.id = i → r.status = .published ∧ r.published_at = some t)
    ∧ (∀ r ∈ mark_as_failed db i, r.id = i → r.status = .failed)
    ∧ mark_as_published (mark_as_published db t i) t i = mark_as_published db t i
    ∧ mark_as_failed (mark_as_failed db i) i = mark_as_failed db i
    ∧ (∀ r ∈ db, r.id ≠ i →
        r ∈ mark_as_published db t i ∧ r ∈ mark_as_failed db i) := by
  refine ⟨?_, ?_, ?_, ?_, ?_⟩
  · intro r hr
    obtain ⟨r0, hr0, rfl⟩ := List.mem_map.1 hr
    by_cases h0 : r0.id = i
    · simp [h0]
    · have hbf : (r0.id == i) = false := by simpa using h0
      simp only [hbf, Bool.false_eq_true, if_false]
      intro hid
      exact absurd hid h0
  · intro r hr
    obtain ⟨r0, hr0, rfl⟩ := List.mem_map.1 hr
    by_cases h0 : r0.id = i
    · simp [h0]
    · have hbf : (r0.id == i) = false := by simpa using h0
      simp only [hbf, Bool.false_eq_true, if_false]
      intro hid
      exact absurd hid h0
  · unfold mark_as_published
    rw [List.map_map]
    refine List.map_congr_left ?_
    intro a ha
    by_cases h0 : a.id = i
    · simp [Function.comp, h0]
    · have hbf : (a.id == i) = false := by simpa using h0
      simp [Function.comp, hbf]
  · unfold mark_as_failed
    rw [List.map_map]
    refine List.map_congr_left ?_
    intro a ha
    by_cases h0 : a.id = i
    · simp [Function.comp, h0]
    · have hbf : (a.id == i) = false := by simpa using h0
      simp [Function.comp, hbf]
  · intro r hr hne
    have hbf : (r.id == i) = false := by simpa using hne
    constructor
    · refine List.mem_map.2 ⟨r, hr, ?_⟩
      simp [hbf]
    · refine List.mem_map.2 ⟨r, hr, ?_⟩
      simp [hbf]

/-- Witness for C6 (amended): a record whose id differs from the updated one
survives both marks unchanged. -/
theorem C6_mark_transitions_witness :
    recFailed ∈ mark_as_published [recFailed] (mkSlot 0 9) 2
    ∧ recFailed ∈ mark_as_failed [recFailed] 2 :=
  (C6_mark_transitions [recFailed] (mkSlot 0 9) 2).2.2.2.2 recFailed
    (List.mem_cons_self _ _) (by decide)

/-- C7: with a non-empty configured hour set the allocator never refuses to
schedule: when every candidate in the horizon is occupied it returns the last
horizon candidate (which exists — no raise, no null), and when no occupancy
store is supplied it returns the first chronological candidate, a member of the
candidate list. -/
theorem C7_never_refuses (hours : List Nat) (now : Timestamp) (hne : hours ≠ []) :
    (∀ occ : Timestamp → Nat,
      (∀ s ∈ availableSlots hours now, occ s ≠ 0) →
      get_next_available_slot hours now false (some occ)
          = (availableSlots hours now).getLast?
        ∧ ((availableSlots hours now).getLast?).isSome = true)
    ∧ get_next_available_slot hours now false none
        = some ((availableSlots hours now).headD now)
    ∧ (availableSlots hours now).headD now ∈ availableSlots hours now := by
  have hnn := availableSlots_ne_nil now hne
  refine ⟨?_, rfl, ?_⟩
  · intro occ hocc
    have hfind : (availableSlots hours now).find? (fun s => occ s == 0) = none := by
      rw [List.find?_eq_none]
      intro x hx
      simpa using hocc x hx
    constructor
    · have hred : get_next_available_slot hours now false (some occ)
          = (match (availableSlots hours now).find? (fun s => occ s == 0) with
             | some s => some s
             | none => (availableSlots hours now).getLast?) := rfl
      rw [hred, hfind]
    · exact List.getLast?_isSome.2 hnn
  · cases hS : availableSlots hours now with
    | nil => exact absurd hS hnn
    | cons a l => simp

/-- Witness for C7: a single configured hour, an occupancy function that reports
every slot occupied. -/
theorem C7_never_refuses_witness :
    get_next_available_slot [8] ⟨0, 9, 0, 0, 0⟩ false (some (fun _ => 1))
        = (availableSlots [8] ⟨0, 9, 0, 0, 0⟩).getLast?
    ∧ get_next_available_slot [8] ⟨0, 9, 0, 0, 0⟩ false none
        = some ((availableSlots [8] ⟨0, 9, 0, 0, 0⟩).headD ⟨0, 9, 0, 0, 0⟩) :=
  ⟨((C7_never_refuses [8] ⟨0, 9, 0, 0, 0⟩ (by decide)).1 (fun _ => 1)
      (fun s _ => Nat.one_ne_zero)).1,
   (C7_never_refuses [8] ⟨0, 9, 0, 0, 0⟩ (by decide)).2.1⟩

/-- C8: after the cleanup sweep, every published record older than the 7-day
retention window is gone, while every pending and every failed record, of any
age, survives (the sweep is a filter: survivors are kept unchanged, in order). -/
theorem C8_retention_sweep (db : NewsDB) (now : Timestamp) :
    (∀ r ∈ db, r.status = .published → ∀ p : Timestamp, r.published_at = some p →
      key p + daysMicro 7 < key now → r ∉ cleanup_old_news_job db now)
    ∧ (∀ r ∈ db, r.status = .pending ∨ r.status = .failed →
        r ∈ cleanup_old_news_job db now)
    ∧ List.Sublist (cleanup_old_news_job db now) db := by
  refine ⟨?_, ?_, ?_⟩
  · intro r hr hpub p hp hold hmem
    unfold cleanup_old_news_job delete_old_published_news at hmem
    have hf := (List.mem_filter.1 hmem).2
    simp [hpub, hp, hold] at hf
  · intro r hr hps
    unfold cleanup_old_news_job delete_old_published_news
    refine List.mem_filter.2 ⟨hr, ?_⟩
    rcases hps with h | h <;> simp [h]
  · unfold cleanup_old_news_job delete_old_published_news
    exact List.filter_sublist db

/-- Witness for C8: a published record 10 days old is swept, a failed record
of the same age survives. -/
theorem C8_retention_sweep_witness :
    recPublishedOld ∉ cleanup_old_news_job [recPublishedOld, recFailed] (mkSlot 10 9)
    ∧ recFailed ∈ cleanup_old_news_job [recPublishedOld, recFailed] (mkSlot 10 9) :=
  ⟨(C8_retention_sweep [recPublishedOld, recFailed] (mkSlot 10 9)).1 recPublishedOld
      (List.mem_cons_self _ _) (by decide) (mkSlot 0 8) (by decide) (by decide),
   (C8_retention_sweep [recPublishedOld, recFailed] (mkSlot 10 9)).2.1 recFailed
      (by decide) (Or.inr (by decide))⟩

/-- C9 counterexample: `get_specific_slot` only rejects `slot_index >=
len(hours)`; the negative index -1 falls through to Python negative indexing
and returns the last configured hour 20:00 combined with the date — a
timestamp, not "none". -/
theorem C9_counterexample :
    get_specific_slot [8, 12, 16, 20] 0 (-1) = some (some (mkSlot 0 20))
    ∧ (some (some (mkSlot 0 20)) : Option (Option Timestamp)) ≠ some none := by
  decide

/-- C9 (amended): `get_specific_slot` returns "none" exactly when `slotIndex ≥
len(hours)`; for 0 ≤ slotIndex < len(hours) it returns the Nth configured hour
(0-indexed, hours sorted ascending) combined with the date; a negative
slotIndex within -len(hours) ≤ slotIndex < 0 is treated by Python negative
indexing and returns the hour at position slotIndex + len(hours) of the sorted
list; and a slotIndex below -len(hours) raises (`IndexError`) rather than
returning "none". -/
theorem C9_specific_slot (hours : List Nat) (dateDay : Nat) (idx : Int) :
    ((hours.length : Int) ≤ idx → get_specific_slot hours dateDay idx = some none)
    ∧ (0 ≤ idx → idx < (hours.length : Int) →
        ∃ h : Nat, (sortedHours hours)[idx.toNat]? = some h
          ∧ get_specific_slot hours dateDay idx = some (some (mkSlot dateDay h)))
    ∧ (-(hours.length : Int) ≤ idx → idx < 0 →
        ∃ h : Nat, (sortedHours hours)[(idx + (hours.length : Int)).toNat]? = some h
          ∧ get_specific_slot hours dateDay idx = some (some (mkSlot dateDay h)))
    ∧ (idx < -(hours.length : Int) → get_specific_slot hours dateDay idx = none) := by
  have hlen : (sortedHours hours).length = hours.length :=
    (sortedHours_perm hours).length_eq
  refine ⟨?_, ?_, ?_, ?_⟩
  · intro hle
    unfold get_specific_slot
    rw [if_pos hle]
  · intro h0 hlt
    have hb : idx.toNat < (sortedHours hours).length := by omega
    refine ⟨(sortedHours hours)[idx.toNat], List.getElem?_eq_getElem hb, ?_⟩
    unfold get_specific_slot
    rw [if_neg (by omega)]
    unfold pyIdx
    rw [if_pos h0, if_pos (by omega), List.getElem?_eq_getElem hb]
  · intro hge hneg
    have hb : (idx + ((sortedHours hours).length : Int)).toNat
        < (sortedHours hours).length := by omega
    have hb2 : (idx + (hours.length : Int)).toNat < (sortedHours hours).length := by
      omega
    refine ⟨(sortedHours hours)[(idx + (hours.length : Int)).toNat],
      List.getElem?_eq_getElem hb2, ?_⟩
    unfold get_specific_slot
    rw [if_neg (by omega)]
    unfold pyIdx
    rw [if_neg (by omega), if_pos (by omega)]
    have hix : (idx + ((sortedHours hours).length : Int)).toNat
        = (idx + (hours.length : Int)).toNat := by omega
    rw [hix, List.getElem?_eq_getElem hb2]
  · intro hlt
    unfold get_specific_slot
    rw [if_neg (by omega)]
    unfold pyIdx
    rw [if_neg (by omega), if_neg (by omega)]

/-- Witness for C9 (amended): out-of-range positive index 5, in-range index 2,
negative in-range index -1 and raising index -5 over hours {8,12,16,20}. -/
theorem C9_specific_slot_witness :
    get_specific_slot [8, 12, 16, 20] 0 5 = some none
    ∧ get_specific_slot [8, 12, 16, 20] 0 (-5) = none :=
  ⟨(C9_specific_slot [8, 12, 16, 20] 0 5).1 (by decide),
   (C9_specific_slot [8, 12, 16, 20] 0 (-5)).2.2.2 (by decide)⟩

/-- C10: every timestamp produced by the non-urgent slot computations —
`get_next_available_slot` with or without a store, `get_specific_slot`,
`get_all_slots_for_date` and `get_next_publication_time` — is an exact
top-of-hour Madrid-civil instant (minute, second, microsecond all zero) whose
hour is one of the configured publication hours, so the store's exact-equality
occupancy matching is well-defined on allocator output. -/
theorem C10_slots_top_of_hour (hours : List Nat) (now : Timestamp)
    (hne : hours ≠ []) :
    (∀ db : Option (Timestamp → Nat), ∀ t : Timestamp,
      get_next_available_slot hours now false db = some t →
        topOfHour t ∧ t.hour ∈ hours)
    ∧ (∀ dateDay : Nat, ∀ idx : Int, ∀ t : Timestamp,
        get_specific_slot hours dateDay idx = some (some t) →
          topOfHour t ∧ t.hour ∈ hours)
    ∧ (∀ dateDay : Nat, ∀ t ∈ get_all_slots_for_date hours dateDay,
        topOfHour t ∧ t.hour ∈ hours)
    ∧ (∀ t : Timestamp, get_next_publication_time hours now = some t →
        topOfHour t ∧ t.hour ∈ hours) := by
  have hshape : ∀ s ∈ availableSlots hours now, topOfHour s ∧ s.hour ∈ hours := by
    intro s hs
    obtain ⟨d, h, hh, rfl⟩ := mem_availableSlots_shape hs
    exact ⟨⟨rfl, rfl, rfl⟩, hh⟩
  refine ⟨?_, ?_, ?_, ?_⟩
  · intro db t ht
    cases db with
    | none =>
        have ht2 : some ((availableSlots hours now).headD now) = some t := ht
        have hmem : (availableSlots hours now).headD now ∈ availableSlots hours now := by
          cases hS : availableSlots hours now with
          | nil => exact absurd hS (availableSlots_ne_nil now hne)
          | cons a l => simp
        rw [Option.some.injEq] at ht2
        rw [← ht2]
        exact hshape _ hmem
    | some occ =>
        have ht2 : (match (availableSlots hours now).find? (fun s => occ s == 0) with
            | some s => some s
            | none => (availableSlots hours now).getLast?) = some t := ht
        cases hf : (availableSlots hours now).find? (fun s => occ s == 0) with
        | some s =>
            rw [hf] at ht2
            rw [Option.some.injEq] at ht2
            rw [← ht2]
            exact hshape s (List.mem_of_find?_eq_some hf)
        | none =>
            rw [hf] at ht2
            exact hshape t (List.mem_of_mem_getLast? ht2)
  · intro dateDay idx t ht
    unfold get_specific_slot at ht
    split at ht
    · exact absurd ht (by simp)
    · cases hp : pyIdx (sortedHours hours) idx with
      | some h =>
          rw [hp] at ht
          have ht2 : mkSlot dateDay h = t := by simpa using ht
          rw [← ht2]
          exact ⟨⟨rfl, rfl, rfl⟩, mem_sortedHours.1 (pyIdx_mem hp)⟩
      | none =>
          rw [hp] at ht
          exact absurd ht (by simp)
  · intro dateDay t ht
    obtain ⟨h, hh, rfl⟩ := List.mem_map.1 ht
    exact ⟨⟨rfl, rfl, rfl⟩, mem_sortedHours.1 hh⟩
  · intro t ht
    unfold get_next_publication_time at ht
    dsimp only at ht
    cases hm : pyMin key (((sortedHours hours).map (mkSlot now.day)).filter
        (fun s => decide (key now < key s))) with
    | some t0 =>
        rw [hm] at ht
        rw [Option.some.injEq] at ht
        rw [← ht]
        have ht0 := pyMin_mem key hm
        have ht1 := (List.mem_filter.1 ht0).1
        obtain ⟨h, hh, rfl⟩ := List.mem_map.1 ht1
        exact ⟨⟨rfl, rfl, rfl⟩, mem_sortedHours.1 hh⟩
    | none =>
        rw [hm] at ht
        cases hh : pyMin id hours with
        | some h0 =>
            rw [hh] at ht
            rw [Option.some.injEq] at ht
            rw [← ht]
            exact ⟨⟨rfl, rfl, rfl⟩, pyMin_mem id hh⟩
        | none =>
            rw [hh] at ht
            exact absurd ht (by simp)

/-- Witness for C10: the store-less allocation at 09:00 with hours {8,12,16,20}
returns today 12:00, a top-of-hour instant at a configured hour. -/
theorem C10_slots_top_of_hour_witness :
    topOfHour (mkSlot 0 12) ∧ (mkSlot 0 12).hour ∈ [8, 12, 16, 20] :=
  (C10_slots_top_of_hour [8, 12, 16, 20] ⟨0, 9, 0, 0, 0⟩ (by decide)).1 none
    (mkSlot 0 12) (by decide)

end NewsBot
